import Mathlib

/-!
# Verification of Bob-Lib (annotated map + resource-aware pathfinder)

Shallow embedding of the Rust sources:

* `src/enhanced_map/mod.rs` — `BobPinTypes` (with its hand-written
  `PartialEq` comparing `Custom` pins by `Arc` pointer identity),
  `BobMap` with `add_pin` / `get_pin` / `delete_pin` / `search_pin`
  and the `auto_update` resync sweep;
* `src/pathfinder.rs` — `Node::successors`, the cardinal-neighbour
  successor generator used by the Dijkstra search;
* `lib/utils/mod.rs` — `get_edge_cost` and `costs_relation`.

Modelling conventions:

* Rust `usize` indices are `Nat`; the index arithmetic of
  `Node::successors` (`y + 1`, `y - 1`, `x - 1`, `x + 1` on `usize`,
  with no bounds check) is modelled over `Int` so that the underflow
  `0 - 1` shows up as the out-of-range index `-1`.
* `f64` values are modelled as exact rationals (`Rat`); `f64::round`
  (round half away from zero) is `rustRound`; the saturating casts
  `as usize` / `AsPrimitive::as_()` on a rounded value are modelled by
  `Int.toNat`, which saturates at `0` from below (the upper cap
  `usize::MAX` is not modelled — every value in scope is tiny).
  Division by a zero rational yields `0` in `Rat` while `f64` yields
  an infinity, so weight statements assume a positive ratio.
* `HashMap<Arc<BobPinTypes>, Vec<(usize,usize)>>` is modelled as an
  association list looked up with the pin equality `pinBeq`
  (`Arc<T>`'s `Eq`/`Hash` delegate to `T`'s); iteration order is never
  observed by the operations under study.
* `Arc<dyn Any>` payloads of `Custom` pins are modelled as an
  allocation identifier (the pointer identity the Rust `PartialEq`
  compares) together with a payload value that the comparison ignores.
* Out-of-range accesses panic in Rust; the embedding's total functions
  return `none` / leave state unchanged there, and every theorem about
  in-range behaviour carries explicit range hypotheses.
-/

/-- Terrain types of `robotics_lib::world::tile::TileType` (external
dependency, modelled structurally; equality is the derived by-value one). -/
inductive TileType where
  | DeepWater
  | ShallowWater
  | Sand
  | Grass
  | Street
  | Hill
  | Mountain
  | Snow
  | Lava
  | Teleport (active : Bool)
  | Wall
deriving DecidableEq, Repr

/-- Cell contents of `robotics_lib::world::tile::Content` (external
dependency; representative subset, equality is the derived by-value one). -/
inductive Content where
  | Rock (amount : Nat)
  | Tree (amount : Nat)
  | Fish (amount : Nat)
  | Coin (amount : Nat)
  | Garbage (amount : Nat)
  | NoContent
deriving DecidableEq, Repr

/-- `robotics_lib::world::tile::Tile`: terrain type, content, elevation. -/
structure Tile where
  tile_type : TileType
  content : Content
  elevation : Nat
deriving DecidableEq, Repr

/-- `BobPinTypes` from `src/enhanced_map/mod.rs`.  The Rust `Custom`
variant holds `Arc<dyn Any + Send + Sync>`; here it holds the identity
of that allocation (`allocId`, standing for the `Arc::as_ptr` value the
hand-written `PartialEq`/`Hash` use) plus the payload value itself,
which the comparison never looks at. -/
inductive BobPinTypes where
  | I32 (val : Int)
  | Str (val : String)
  | TT (val : TileType)
  | Contents (val : Content)
  | City
  | Bank (val : Nat)
  | Market
  | Custom (allocId : Nat) (payload : Nat)
deriving DecidableEq, Repr

/-- `impl PartialEq for BobPinTypes` (src/enhanced_map/mod.rs, lines
72–118): simple variants compare their values, `Custom` compares the
`Arc` pointers (`allocId` here) and ignores the pointed-to payload. -/
def pinBeq : BobPinTypes → BobPinTypes → Bool
  | .Market, .Market => true
  | .City, .City => true
  | .I32 a, .I32 b => a == b
  | .Str a, .Str b => a == b
  | .TT a, .TT b => a == b
  | .Contents a, .Contents b => a == b
  | .Bank a, .Bank b => a == b
  | .Custom i _, .Custom j _ => i == j
  | _, _ => false

/-- `BobErr` from `src/enhanced_map/mod.rs`. -/
inductive BobErr where
  | PinAlreadySet
  | PinNotFound
  | EmptyTile
deriving DecidableEq, Repr

/-- One cell of the enhanced map: optional observed tile, optional pin. -/
abbrev Cell := Option Tile × Option BobPinTypes

/-- Row-major indexed read of a nested list (`m[i][j]` when in range). -/
def getCell (m : List (List α)) (i j : Nat) : Option α :=
  (m.get? i).bind (fun r => r.get? j)

/-- Row-major indexed write; out-of-range writes leave the grid
unchanged (Rust would panic — theorems carry range hypotheses). -/
def setCell (m : List (List α)) (i j : Nat) (a : α) : List (List α) :=
  match m.get? i with
  | none => m
  | some row => m.set i (row.set j a)

/-- The reverse index `pins_location : HashMap<Arc<BobPinTypes>,
Vec<(usize,usize)>>`, as an association list with `pinBeq` keys. -/
abbrev PinsLoc := List (BobPinTypes × List (Nat × Nat))

/-- `HashMap::contains_key`/`get` on the reverse index. -/
def plLookup (l : PinsLoc) (p : BobPinTypes) : Option (List (Nat × Nat)) :=
  match l with
  | [] => none
  | (k, v) :: rest => if pinBeq k p then some v else plLookup rest p

/-- `get_mut(..).push((x,y))`: append a coordinate to the entry of `p`. -/
def plPush (l : PinsLoc) (p : BobPinTypes) (xy : Nat × Nat) : PinsLoc :=
  match l with
  | [] => []
  | (k, v) :: rest =>
    if pinBeq k p then (k, v ++ [xy]) :: rest else (k, v) :: plPush rest p xy

/-- `BobMap` (src/enhanced_map/mod.rs, lines 156–159): the grid of
cells plus the reverse index from pin to coordinate list. -/
structure BobMap where
  map : List (List Cell)
  pins_location : PinsLoc
deriving DecidableEq, Repr

/-- `BobMap::add_pin` (lines 215–228): fail `PinAlreadySet` if the cell
already holds a pin; otherwise store the pin in the cell and record the
coordinate under the pin's key in `pins_location` (pushing onto an
existing entry or inserting a fresh singleton entry).  Returned as
(result, updated state), mirroring `(&mut self) -> Result<(), BobErr>`. -/
def add_pin (s : BobMap) (pin : BobPinTypes) (xy : Nat × Nat) :
    Except BobErr Unit × BobMap :=
  let (x, y) := xy
  match getCell s.map x y with
  | some (_, some _) => (.error .PinAlreadySet, s)
  | some (t, none) =>
    let map' := setCell s.map x y (t, some pin)
    let pl :=
      match plLookup s.pins_location pin with
      | some _ => plPush s.pins_location pin (x, y)
      | none => s.pins_location ++ [(pin, [(x, y)])]
    (.ok (), ⟨map', pl⟩)
  | none => (.error .PinAlreadySet, s)

/-- `BobMap::get_pin` (lines 242–244): the pin stored at the cell. -/
def get_pin (s : BobMap) (xy : Nat × Nat) : Option BobPinTypes :=
  (getCell s.map xy.1 xy.2).bind (fun c => c.2)

/-- `BobMap::delete_pin` (lines 261–267): if the cell holds a pin,
clear the cell and return `Ok`; otherwise fail `EmptyTile`.  Note that
the Rust body touches only `self.map[x][y].1` — `pins_location` is
left exactly as it was. -/
def delete_pin (s : BobMap) (xy : Nat × Nat) : Except BobErr Unit × BobMap :=
  let (x, y) := xy
  match getCell s.map x y with
  | some (t, some _) => (.ok (), ⟨setCell s.map x y (t, none), s.pins_location⟩)
  | _ => (.error .EmptyTile, s)

/-- `BobMap::search_pin` (lines 331–338): the coordinate list recorded
under the pin's key, or `PinNotFound` when the key is absent. -/
def search_pin (s : BobMap) (pin : BobPinTypes) :
    Except BobErr (List (Nat × Nat)) :=
  match plLookup s.pins_location pin with
  | some v => .ok v
  | none => .error .PinNotFound

/-- `BobMap::auto_update` (lines 192–203), one row: for each column `j`,
overwrite the cell's tile with `robot_map[i][j]` whenever that ground
truth entry `is_some()`; the pin component is untouched.  Ground-truth
rows shorter than the map row would panic in Rust; the model keeps the
remaining cells. -/
def autoUpdateRow (gtRow : List (Option Tile)) (row : List Cell) : List Cell :=
  match row, gtRow with
  | [], _ => []
  | c :: cs, [] => c :: cs
  | c :: cs, g :: gs =>
    (match g with
     | some t => (some t, c.2)
     | none => c) :: autoUpdateRow gs cs

/-- `BobMap::auto_update` over the whole grid (the parallel row sweep
is order-independent per cell, so it is modelled row by row). -/
def autoUpdate (gt : List (List (Option Tile))) (m : List (List Cell)) :
    List (List Cell) :=
  match m, gt with
  | [], _ => []
  | row :: rows, [] => row :: rows
  | row :: rows, g :: gs => autoUpdateRow g row :: autoUpdate gs rows

/-- `get_edge_cost`'s result `(isize, isize)`: per-traversal energy
cost and material delta (lib/utils/mod.rs, comment `// return (energy,
material)`). -/
structure EdgeCost where
  energy : Int
  material : Int
deriving DecidableEq, Repr

/-- `get_edge_cost` (lib/utils/mod.rs, lines 75–84): terrain type to
optional (energy, material) cost pair; `None` for non-traversable
terrain (`Street`, `Wall`, `Teleport`). -/
def get_edge_cost : TileType → Option EdgeCost
  | .Grass | .Sand | .Hill | .Snow => some ⟨1, 1⟩
  | .ShallowWater => some ⟨2, 2⟩
  | .DeepWater => some ⟨6, 3⟩
  | .Lava => some ⟨9, 3⟩
  | .Mountain => some ⟨16, -4⟩
  | _ => none

/-- `costs_relation` (lib/utils/mod.rs, lines 102–111): `0` when either
budget is zero, else `energy / (materials / divider)`.  `f64` modelled
as `Rat`. -/
def costs_relation (energy materials : Nat) (divider : Rat) : Rat :=
  match materials, energy with
  | 0, _ => 0
  | _ + 1, 0 => 0
  | _ + 1, _ + 1 => (energy : Rat) / ((materials : Rat) / divider)

/-- `f64::round`: round to the nearest integer, halfway cases away
from zero. -/
def rustRound (q : Rat) : Int :=
  if 0 ≤ q then ⌊q + 1 / 2⌋ else ⌈q - 1 / 2⌉

/-- The pathfinder's weighting modes (src/pathfinder.rs, lines 17–21);
`AllOut` is the spec's "Balanced". -/
inductive BobMode where
  | EnergySave
  | MaterialSave
  | AllOut
deriving DecidableEq, Repr

/-- `Node` (src/pathfinder.rs, lines 10–15): `(x, y, energy, rocks)` —
grid coordinate (`usize`), remaining energy and remaining material
(`isize`). -/
structure Node where
  x : Nat
  y : Nat
  energy : Int
  rocks : Int
deriving DecidableEq, Repr

/-- Read `map[i][j]` on a grid of optional tiles with `Int` indices.
A negative or otherwise out-of-range index yields `none` (the Rust
code panics there — claim C4 covers the missing bounds checks). -/
def lookupTile (m : List (List (Option Tile))) (i j : Int) : Option Tile :=
  if 0 ≤ i ∧ 0 ≤ j then
    match getCell m i.toNat j.toNat with
    | some (some t) => some t
    | _ => none
  else none

/-- The edge weight pushed with each successor (src/pathfinder.rs,
lines 34–48 and the three analogous blocks): per mode, `f64::round` of
`energy × relation` and/or `material / relation`, cast to `usize`.
The cast (`as usize` / `.as_()`) saturates: a negative rounded value
becomes `0`, modelled by `Int.toNat`. -/
def edgeWeight (mode : BobMode) (relation : Rat) (c : EdgeCost) : Nat :=
  match mode with
  | .EnergySave => (rustRound ((c.energy : Rat) * relation)).toNat
  | .MaterialSave => (rustRound ((c.material : Rat) / relation)).toNat
  | .AllOut =>
    (rustRound ((c.energy : Rat) * relation)).toNat +
      (rustRound ((c.material : Rat) / relation)).toNat

/-- One of the four identical neighbour blocks of `Node::successors`:
look the neighbour cell up, and if it holds a tile for which
`get_edge_cost` yields a cost pair, push the successor node —
coordinate set to the neighbour, `energy - cost.energy`,
`min (rocks - cost.material) 20` — together with its mode weight.
No energy or material feasibility check appears. -/
def succAt (m : List (List (Option Tile))) (mode : BobMode) (relation : Rat)
    (n : Node) (ix iy : Int) : List (Node × Nat) :=
  match lookupTile m ix iy with
  | none => []
  | some t =>
    match get_edge_cost t.tile_type with
    | none => []
    | some c =>
      [(⟨ix.toNat, iy.toNat, n.energy - c.energy,
          min (n.rocks - c.material) 20⟩,
        edgeWeight mode relation c)]

/-- `Node::successors` (src/pathfinder.rs, lines 25–124): the four
cardinal neighbours in source order — `(x, y+1)`, `(x, y-1)`,
`(x-1, y)`, `(x+1, y)`. -/
def successors (m : List (List (Option Tile))) (mode : BobMode)
    (relation : Rat) (n : Node) : List (Node × Nat) :=
  succAt m mode relation n n.x ((n.y : Int) + 1) ++
    succAt m mode relation n n.x ((n.y : Int) - 1) ++
      succAt m mode relation n ((n.x : Int) - 1) n.y ++
        succAt m mode relation n ((n.x : Int) + 1) n.y

/-- The four grid indices `Node::successors` reads — `map[x][y+1]`,
`map[x][y-1]`, `map[x-1][y]`, `map[x+1][y]` — computed over `Int` so
that the `usize` underflow at row/column `0` appears as index `-1`. -/
def successorsAccesses (x y : Nat) : List (Int × Int) :=
  [((x : Int), (y : Int) + 1), ((x : Int), (y : Int) - 1),
    ((x : Int) - 1, (y : Int)), ((x : Int) + 1, (y : Int))]

/-- Whether `Node::successors` would produce an edge toward the cell at
`(ix, iy)`: the cell is observed and its terrain has a cost pair. -/
def edgeExists (m : List (List (Option Tile))) (p : Int × Int) : Bool :=
  match lookupTile m p.1 p.2 with
  | none => false
  | some t => (get_edge_cost t.tile_type).isSome

/-- A plain grass tile (energy cost 1, material delta 1). -/
def grassTile : Tile := ⟨.Grass, .NoContent, 0⟩

/-- A mountain tile (energy cost 16, material delta −4). -/
def mountainTile : Tile := ⟨.Mountain, .NoContent, 0⟩

/-- 3×3 all-grass observed grid. -/
def g3 : List (List (Option Tile)) :=
  [[some grassTile, some grassTile, some grassTile],
   [some grassTile, some grassTile, some grassTile],
   [some grassTile, some grassTile, some grassTile]]

/-- 3×3 grass grid with a mountain at `(1, 2)` (the `y+1` neighbour of
the centre). -/
def g3m : List (List (Option Tile)) :=
  [[some grassTile, some grassTile, some grassTile],
   [some grassTile, some grassTile, some mountainTile],
   [some grassTile, some grassTile, some grassTile]]

/-- A fresh 1×1 `BobMap` with one observed, unpinned cell. -/
def bm1 : BobMap := ⟨[[(some grassTile, none)]], []⟩

/-- A 1×1 `BobMap` whose cell carries a `Market` pin, with the matching
reverse-index entry. -/
def bm1pinned : BobMap := ⟨[[(none, some .Market)]], [(.Market, [(0, 0)])]⟩

/-- Writing a cell and reading it back at the same in-range position
yields the written value. -/
theorem getCell_setCell (m : List (List α)) (i j : Nat) (a b : α)
    (h : getCell m i j = some b) : getCell (setCell m i j a) i j = some a := by
  unfold getCell setCell at *
  cases hr : m.get? i with
  | none => rw [hr] at h; exact absurd h (by simp)
  | some row =>
    rw [hr] at h
    have hj : row.get? j = some b := h
    have hset : (m.set i (row.set j a)).get? i = some (row.set j a) := by
      rw [List.get?_set_eq, hr]; rfl
    show ((m.set i (row.set j a)).get? i).bind (fun r => r.get? j) = some a
    rw [hset]
    show (row.set j a).get? j = some a
    rw [List.get?_set_eq, hj]
    rfl

/-- C1: the spec claims `deletePin` removes the coordinate from the
reverse index (dropping emptied keys) so that `searchPin` never reports
stale entries.  The code violates this: on a fresh 1×1 map, after
`add_pin City (0,0)` succeeds and `delete_pin (0,0)` succeeds, the cell
holds no pin, yet `search_pin City` still returns `Ok [(0,0)]` instead
of `PinNotFound` — `delete_pin` (src/enhanced_map/mod.rs, 261–267) only
clears `map[x][y].1` and never touches `pins_location`. -/
theorem c1_delete_pin_leaves_stale_reverse_index :
    (add_pin bm1 .City (0, 0)).1 = .ok () ∧
    (delete_pin ((add_pin bm1 .City (0, 0)).2) (0, 0)).1 = .ok () ∧
    get_pin ((delete_pin ((add_pin bm1 .City (0, 0)).2) (0, 0)).2) (0, 0)
      = none ∧
    search_pin ((delete_pin ((add_pin bm1 .City (0, 0)).2) (0, 0)).2) .City
      = .ok [(0, 0)] :=
  ⟨rfl, rfl, rfl, rfl⟩

/-- C6: `costs_relation` returns `0` when either budget is zero and
`energy / (materials / divider)` otherwise; in particular
`costs_relation 0 10 2 = 0`, `costs_relation 10 0 2 = 0`,
`costs_relation 20 10 2 = 4`. -/
theorem c6_costs_relation_spec :
    (∀ (e m : Nat) (d : Rat), e = 0 ∨ m = 0 → costs_relation e m d = 0) ∧
    (∀ (e m : Nat) (d : Rat), e ≠ 0 → m ≠ 0 →
      costs_relation e m d = (e : Rat) / ((m : Rat) / d)) ∧
    costs_relation 0 10 2 = 0 ∧ costs_relation 10 0 2 = 0 ∧
    costs_relation 20 10 2 = 4 := by
  have h3 : costs_relation 20 10 2
      = ((20 : Nat) : Rat) / (((10 : Nat) : Rat) / 2) := rfl
  refine ⟨?_, ?_, rfl, rfl, by rw [h3]; push_cast; norm_num⟩
  · intro e m d h
    rcases h with h | h
    · subst h
      cases m with
      | zero => rfl
      | succ m => rfl
    · subst h
      rfl
  · intro e m d he hm
    cases e with
    | zero => exact absurd rfl he
    | succ e =>
      cases m with
      | zero => exact absurd rfl hm
      | succ m => rfl

/-- Closed instance of C6's theorem: both zero-budget hypotheses and the
general-formula hypotheses discharged at concrete inputs. -/
theorem c6_costs_relation_witness :
    costs_relation 0 10 2 = 0 ∧
    costs_relation 20 10 2 = ((20 : Nat) : Rat) / (((10 : Nat) : Rat) / 2) :=
  ⟨c6_costs_relation_spec.1 0 10 2 (Or.inl rfl),
   c6_costs_relation_spec.2.1 20 10 2 (by decide) (by decide)⟩

/-- C8: `add_pin` on a cell that already carries a pin fails with
`PinAlreadySet` and returns the state unchanged — the occupancy check
precedes every mutation of the grid and of the reverse index. -/
theorem c8_add_pin_occupied_unchanged (s : BobMap) (x y : Nat)
    (t : Option Tile) (p pin : BobPinTypes)
    (h : getCell s.map x y = some (t, some p)) :
    add_pin s pin (x, y) = (.error .PinAlreadySet, s) := by
  simp [add_pin, h]

/-- Closed instance of C8's theorem on a concrete occupied cell. -/
theorem c8_add_pin_occupied_witness :
    add_pin bm1pinned .City (0, 0) = (.error .PinAlreadySet, bm1pinned) :=
  c8_add_pin_occupied_unchanged bm1pinned 0 0 none .Market .City (by decide)

/-- C9: pin equality follows the stated scheme — the simple variants
(`I32`, `Str`, `TT`, `Contents`, `Bank`, `City`, `Market`) compare by
value, while two `Custom` pins are equal exactly when they reference
the same allocation: identical payloads under distinct allocations are
unequal, and the same allocation referenced twice is equal. -/
theorem c9_pin_equality_scheme :
    (∀ a b : Int, pinBeq (.I32 a) (.I32 b) = (a == b)) ∧
    (∀ a b : String, pinBeq (.Str a) (.Str b) = (a == b)) ∧
    (∀ a b : TileType, pinBeq (.TT a) (.TT b) = (a == b)) ∧
    (∀ a b : Content, pinBeq (.Contents a) (.Contents b) = (a == b)) ∧
    (∀ a b : Nat, pinBeq (.Bank a) (.Bank b) = (a == b)) ∧
    pinBeq .City .City = true ∧ pinBeq .Market .Market = true ∧
    (∀ i j c c' : Nat, pinBeq (.Custom i c) (.Custom j c') = (i == j)) ∧
    (∀ i j c : Nat, i ≠ j → pinBeq (.Custom i c) (.Custom j c) = false) ∧
    (∀ i c : Nat, pinBeq (.Custom i c) (.Custom i c) = true) := by
  refine ⟨fun a b => rfl, fun a b => rfl, fun a b => rfl, fun a b => rfl,
    fun a b => rfl, rfl, rfl, fun i j c c' => rfl, ?_, ?_⟩
  · intro i j c h
    simp [pinBeq, h]
  · intro i c
    simp [pinBeq]

/-- Closed instance of C9's theorem: distinct allocations with the same
payload compare unequal; the same allocation compares equal. -/
theorem c9_pin_equality_witness :
    pinBeq (.Custom 0 5) (.Custom 1 5) = false ∧
    pinBeq (.Custom 0 5) (.Custom 0 5) = true :=
  ⟨c9_pin_equality_scheme.2.2.2.2.2.2.2.2.1 0 1 5 (by decide),
   c9_pin_equality_scheme.2.2.2.2.2.2.2.2.2 0 5⟩

/-- The neighbour coordinates a `succAt` block emits: exactly the
looked-up index when the cell is observed and traversable, nothing
otherwise. -/
theorem succAt_coords (m : List (List (Option Tile))) (mode : BobMode)
    (rel : Rat) (n : Node) (ix iy : Int) :
    (succAt m mode rel n ix iy).map
        (fun q => ((q.1.x : Int), (q.1.y : Int)))
      = if edgeExists m (ix, iy) then [(ix, iy)] else [] := by
  cases hl : lookupTile m ix iy with
  | none => simp [succAt, edgeExists, hl]
  | some t =>
    have hnn : 0 ≤ ix ∧ 0 ≤ iy := by
      by_contra hcon
      rw [lookupTile, if_neg hcon] at hl
      exact Option.noConfusion hl
    cases hc : get_edge_cost t.tile_type with
    | none => simp [succAt, edgeExists, hl, hc]
    | some c =>
      simp [succAt, edgeExists, hl, hc,
        Int.toNat_of_nonneg hnn.1, Int.toNat_of_nonneg hnn.2]

/-- Every element a `succAt` block emits is the fully-determined
successor of the looked-up traversable cell. -/
theorem succAt_mem {m : List (List (Option Tile))} {mode : BobMode}
    {rel : Rat} {n p} {ix iy : Int} (hp : p ∈ succAt m mode rel n ix iy) :
    ∃ t c, lookupTile m ix iy = some t ∧
      get_edge_cost t.tile_type = some c ∧
      p = (⟨ix.toNat, iy.toNat, n.energy - c.energy,
             min (n.rocks - c.material) 20⟩,
           edgeWeight mode rel c) := by
  unfold succAt at hp
  split at hp
  next => exact absurd hp (by simp)
  next t hl =>
    split at hp
    next => exact absurd hp (by simp)
    next c hc =>
      simp only [List.mem_singleton] at hp
      exact ⟨t, c, hl, hc, hp⟩

/-- C2, counterexample to the claim as stated: on the 3×3 all-grass
grid, the centre node with zero remaining energy still gets all four
neighbours as successors although every edge costs 1 energy — the code
never compares `energy` against the edge cost before pushing. -/
theorem c2_energy_never_checked_cex :
    (successors g3 .EnergySave 1 ⟨1, 1, 0, 20⟩).length = 4 ∧
    get_edge_cost .Grass = some ⟨1, 1⟩ ∧
    ¬ ((0 : Int) ≥ 1) := by
  refine ⟨rfl, rfl, by norm_num⟩

/-- C2 amended: a directed edge from a node to a cardinal neighbour
exists iff the cost model yields an edge for the neighbour's observed
tile; the node's remaining energy is not consulted — the successor
coordinates are identical for every energy value `e`. -/
theorem c2_edge_iff_cost_model (m : List (List (Option Tile)))
    (mode : BobMode) (rel : Rat) (x y : Nat) (e r : Int) :
    (successors m mode rel ⟨x, y, e, r⟩).map
        (fun q => ((q.1.x : Int), (q.1.y : Int)))
      = (successorsAccesses x y).filter (edgeExists m) := by
  simp only [successors, List.map_append, succAt_coords, successorsAccesses,
    List.filter]
  split_ifs <;> simp_all

/-- C3, counterexample to the claim as stated: from the centre of the
3×3 all-grass grid with zero material, all four successors carry
material `-1` — an edge that takes material below zero is produced,
not pruned. -/
theorem c3_negative_material_not_pruned_cex :
    (successors g3 .EnergySave 1 ⟨1, 1, 10, 0⟩).map (fun q => q.1.rocks)
      = [-1, -1, -1, -1] := rfl

/-- C3 amended: every successor's material is
`min (rocks - materialDelta) 20` — decremented and clamped from above
by the hard-coded cap `20` (not a configurable `materialCap`), with no
lower bound and no pruning of edges that drive it negative; energy is
likewise just decremented. -/
theorem c3_material_clamped_above_only (m : List (List (Option Tile)))
    (mode : BobMode) (rel : Rat) (n : Node) (p : Node × Nat)
    (hp : p ∈ successors m mode rel n) :
    ∃ q ∈ successorsAccesses n.x n.y, ∃ t c,
      lookupTile m q.1 q.2 = some t ∧
      get_edge_cost t.tile_type = some c ∧
      p.1.energy = n.energy - c.energy ∧
      p.1.rocks = min (n.rocks - c.material) 20 := by
  simp only [successors, List.mem_append] at hp
  rcases hp with ((hp | hp) | hp) | hp
  · obtain ⟨t, c, hl, hc, hpe⟩ := succAt_mem hp
    exact ⟨((n.x : Int), (n.y : Int) + 1), by simp [successorsAccesses],
      t, c, hl, hc, by rw [hpe], by rw [hpe]⟩
  · obtain ⟨t, c, hl, hc, hpe⟩ := succAt_mem hp
    exact ⟨((n.x : Int), (n.y : Int) - 1), by simp [successorsAccesses],
      t, c, hl, hc, by rw [hpe], by rw [hpe]⟩
  · obtain ⟨t, c, hl, hc, hpe⟩ := succAt_mem hp
    exact ⟨((n.x : Int) - 1, (n.y : Int)), by simp [successorsAccesses],
      t, c, hl, hc, by rw [hpe], by rw [hpe]⟩
  · obtain ⟨t, c, hl, hc, hpe⟩ := succAt_mem hp
    exact ⟨((n.x : Int) + 1, (n.y : Int)), by simp [successorsAccesses],
      t, c, hl, hc, by rw [hpe], by rw [hpe]⟩

/-- Closed instance of C3's amended theorem at a concrete successor of
the zero-material centre node. -/
theorem c3_material_clamp_witness :
    ∃ q ∈ successorsAccesses (1 : Nat) (1 : Nat), ∃ t c,
      lookupTile g3 q.1 q.2 = some t ∧
      get_edge_cost t.tile_type = some c ∧
      ((9 : Int) = (10 : Int) - c.energy) ∧
      ((-1 : Int) = min ((0 : Int) - c.material) 20) :=
  c3_material_clamped_above_only g3 .EnergySave 1 ⟨1, 1, 10, 0⟩
    (⟨1, 2, 9, -1⟩, edgeWeight .EnergySave 1 ⟨1, 1⟩)
    (by simp [successors, succAt, lookupTile, getCell, g3, grassTile,
      get_edge_cost])

/-- C4: `Node::successors` reads `map[x][y+1]`, `map[x][y-1]`,
`map[x-1][y]`, `map[x+1][y]` with no bounds check, so for every node on
the first or last row or column of an `h × w` grid at least one of the
four reads targets an index outside the grid (row/column `-1` — the
`usize` underflow — or `h`/`w`). -/
theorem c4_boundary_access_oob (h w x y : Nat) (hh : 0 < h) (hw : 0 < w)
    (hx : x < h) (hy : y < w)
    (hb : x = 0 ∨ x = h - 1 ∨ y = 0 ∨ y = w - 1) :
    ∃ p ∈ successorsAccesses x y,
      ¬ (0 ≤ p.1 ∧ p.1 < (h : Int) ∧ 0 ≤ p.2 ∧ p.2 < (w : Int)) := by
  rcases hb with hb | hb | hb | hb
  · refine ⟨((x : Int) - 1, (y : Int)), by simp [successorsAccesses], ?_⟩
    intro hcon
    omega
  · refine ⟨((x : Int) + 1, (y : Int)), by simp [successorsAccesses], ?_⟩
    intro hcon
    omega
  · refine ⟨((x : Int), (y : Int) - 1), by simp [successorsAccesses], ?_⟩
    intro hcon
    omega
  · refine ⟨((x : Int), (y : Int) + 1), by simp [successorsAccesses], ?_⟩
    intro hcon
    omega

/-- Closed instance of C4's theorem: the top-edge node `(0,1)` of a
3×3 grid has an access at row `-1`. -/
theorem c4_boundary_access_witness :
    ∃ p ∈ successorsAccesses 0 1,
      ¬ (0 ≤ p.1 ∧ p.1 < ((3 : Nat) : Int) ∧ 0 ≤ p.2 ∧
          p.2 < ((3 : Nat) : Int)) :=
  c4_boundary_access_oob 3 3 0 1 (by norm_num) (by norm_num) (by norm_num)
    (by norm_num) (Or.inl rfl)

/-- C5, counterexample to the claim as stated: stepping from the centre
of `g3m` onto the Mountain tile (energy cost 16, material delta −4) in
Balanced (`AllOut`) mode with ratio 1, the code's weight is 16 — each
rounded component is cast to `usize` separately, so the negative
material component saturates to 0 — while the claimed formula
`round(energyCost × ratio) + round(materialCost / ratio)` yields 12. -/
theorem c5_balanced_weight_not_round_sum_cex :
    (successors g3m .AllOut 1 ⟨1, 1, 100, 20⟩).head?
      = some (⟨1, 2, 84, 20⟩, edgeWeight .AllOut 1 ⟨16, -4⟩) ∧
    edgeWeight .AllOut 1 ⟨16, -4⟩ = 16 ∧
    rustRound ((16 : Rat) * 1) + rustRound ((-4 : Rat) / 1) = 12 := by
  have h1 : rustRound (((16 : Int) : Rat) * 1) = 16 := by
    unfold rustRound
    rw [if_pos (by norm_num), Int.floor_eq_iff]
    norm_num
  have h2 : rustRound (((-4 : Int) : Rat) / 1) = -4 := by
    unfold rustRound
    rw [if_neg (by norm_num), Int.ceil_eq_iff]
    norm_num
  have h3 : rustRound ((16 : Rat) * 1) = 16 := by
    unfold rustRound
    rw [if_pos (by norm_num), Int.floor_eq_iff]
    norm_num
  have h4 : rustRound ((-4 : Rat) / 1) = -4 := by
    unfold rustRound
    rw [if_neg (by norm_num), Int.ceil_eq_iff]
    norm_num
  refine ⟨rfl, ?_, ?_⟩
  · show (rustRound (((16 : Int) : Rat) * 1)).toNat
        + (rustRound (((-4 : Int) : Rat) / 1)).toNat = 16
    rw [h1, h2]
    rfl
  · rw [h3, h4]
    norm_num

/-- C5 amended: for a positive ratio, each successor's weight is the
per-mode formula with every rounded component cast to `usize` through
the saturating cast (`Int.toNat`): `sat(round(energyCost × ratio))` for
EnergySave, `sat(round(materialCost / ratio))` for MaterialSave, and
the sum of the two saturated components for Balanced (`AllOut`) — so
the weight is a natural number (non-negative), but on material-netting
tiles a negative component contributes `0` rather than its (negative)
rounded value. -/
theorem c5_weight_saturated_per_mode (m : List (List (Option Tile)))
    (mode : BobMode) (rel : Rat) (n : Node) (p : Node × Nat)
    (hrel : 0 < rel) (hp : p ∈ successors m mode rel n) :
    ∃ q ∈ successorsAccesses n.x n.y, ∃ t c,
      lookupTile m q.1 q.2 = some t ∧
      get_edge_cost t.tile_type = some c ∧
      p.2 = edgeWeight mode rel c ∧
      edgeWeight .EnergySave rel c
        = (rustRound ((c.energy : Rat) * rel)).toNat ∧
      edgeWeight .MaterialSave rel c
        = (rustRound ((c.material : Rat) / rel)).toNat ∧
      edgeWeight .AllOut rel c
        = (rustRound ((c.energy : Rat) * rel)).toNat +
            (rustRound ((c.material : Rat) / rel)).toNat := by
  simp only [successors, List.mem_append] at hp
  rcases hp with ((hp | hp) | hp) | hp
  · obtain ⟨t, c, hl, hc, hpe⟩ := succAt_mem hp
    exact ⟨((n.x : Int), (n.y : Int) + 1), by simp [successorsAccesses],
      t, c, hl, hc, by rw [hpe], rfl, rfl, rfl⟩
  · obtain ⟨t, c, hl, hc, hpe⟩ := succAt_mem hp
    exact ⟨((n.x : Int), (n.y : Int) - 1), by simp [successorsAccesses],
      t, c, hl, hc, by rw [hpe], rfl, rfl, rfl⟩
  · obtain ⟨t, c, hl, hc, hpe⟩ := succAt_mem hp
    exact ⟨((n.x : Int) - 1, (n.y : Int)), by simp [successorsAccesses],
      t, c, hl, hc, by rw [hpe], rfl, rfl, rfl⟩
  · obtain ⟨t, c, hl, hc, hpe⟩ := succAt_mem hp
    exact ⟨((n.x : Int) + 1, (n.y : Int)), by simp [successorsAccesses],
      t, c, hl, hc, by rw [hpe], rfl, rfl, rfl⟩

/-- Closed instance of C5's amended theorem on the Mountain edge of
`g3m` in Balanced (`AllOut`) mode with ratio 1. -/
theorem c5_weight_saturated_witness :
    ∃ q ∈ successorsAccesses (1 : Nat) (1 : Nat), ∃ t c,
      lookupTile g3m q.1 q.2 = some t ∧
      get_edge_cost t.tile_type = some c ∧
      edgeWeight .AllOut 1 ⟨16, -4⟩ = edgeWeight .AllOut 1 c ∧
      edgeWeight .EnergySave 1 c
        = (rustRound ((c.energy : Rat) * 1)).toNat ∧
      edgeWeight .MaterialSave 1 c
        = (rustRound ((c.material : Rat) / 1)).toNat ∧
      edgeWeight .AllOut 1 c
        = (rustRound ((c.energy : Rat) * 1)).toNat +
            (rustRound ((c.material : Rat) / 1)).toNat :=
  c5_weight_saturated_per_mode g3m .AllOut 1 ⟨1, 1, 100, 20⟩
    (⟨1, 2, 84, 20⟩, edgeWeight .AllOut 1 ⟨16, -4⟩) (by norm_num)
    (by simp [successors, succAt, lookupTile, getCell, g3m, grassTile,
      mountainTile, get_edge_cost])

/-- C7: on an in-range cell, a successful `add_pin pin` makes `get_pin`
return that pin, and a successful `delete_pin` makes `get_pin` return
`none`. -/
theorem c7_add_then_get_delete_then_get (s : BobMap) (x y : Nat)
    (pin : BobPinTypes) :
    (∀ s', (getCell s.map x y).isSome →
        add_pin s pin (x, y) = (.ok (), s') →
        get_pin s' (x, y) = some pin) ∧
    (∀ s', delete_pin s (x, y) = (.ok (), s') →
        get_pin s' (x, y) = none) := by
  constructor
  · intro s' hcell hadd
    cases hc : getCell s.map x y with
    | none => rw [hc] at hcell; exact absurd hcell (by simp)
    | some cell =>
      obtain ⟨t, pn⟩ := cell
      cases pn with
      | some p0 => simp [add_pin, hc] at hadd
      | none =>
        simp only [add_pin, hc] at hadd
        rw [Prod.mk.injEq] at hadd
        obtain ⟨-, hs'⟩ := hadd
        subst hs'
        have hset := getCell_setCell s.map x y (t, some pin) (t, none) hc
        simp [get_pin, hset]
  · intro s' hdel
    cases hc : getCell s.map x y with
    | none => simp [delete_pin, hc] at hdel
    | some cell =>
      obtain ⟨t, pn⟩ := cell
      cases pn with
      | none => simp [delete_pin, hc] at hdel
      | some p0 =>
        simp only [delete_pin, hc] at hdel
        rw [Prod.mk.injEq] at hdel
        obtain ⟨-, hs'⟩ := hdel
        subst hs'
        have hset := getCell_setCell s.map x y (t, none) (t, some p0) hc
        simp [get_pin, hset]

/-- Closed instance of C7's theorem: adding `Market` to the fresh 1×1
map then reading it back, and deleting the pin of the pinned 1×1 map
then reading back `none`. -/
theorem c7_add_get_delete_get_witness :
    get_pin ⟨[[(some grassTile, some .Market)]],
        [(.Market, [(0, 0)])]⟩ (0, 0) = some .Market ∧
    get_pin ⟨[[(none, none)]], [(.Market, [(0, 0)])]⟩ (0, 0) = none :=
  ⟨(c7_add_then_get_delete_then_get bm1 0 0 .Market).1
      ⟨[[(some grassTile, some .Market)]], [(.Market, [(0, 0)])]⟩
      (by decide) rfl,
   (c7_add_then_get_delete_then_get bm1pinned 0 0 .Market).2
      ⟨[[(none, none)]], [(.Market, [(0, 0)])]⟩ rfl⟩

/-- One row of the resync sweep applied twice with the same ground
truth equals one application. -/
theorem autoUpdateRow_idem (g : List (Option Tile)) (row : List Cell) :
    autoUpdateRow g (autoUpdateRow g row) = autoUpdateRow g row := by
  induction row generalizing g with
  | nil => cases g <;> rfl
  | cons c cs ih =>
    cases g with
    | nil => rfl
    | cons g0 gs =>
      cases g0 with
      | none => simp [autoUpdateRow, ih]
      | some t => simp [autoUpdateRow, ih]

/-- One row of the resync sweep never downgrades an observed cell. -/
theorem autoUpdateRow_mono (g : List (Option Tile)) (row : List Cell)
    (j : Nat) (c : Cell) (h : row.get? j = some c) (hs : c.1.isSome) :
    ∃ c', (autoUpdateRow g row).get? j = some c' ∧ c'.1.isSome := by
  induction row generalizing g j with
  | nil => exact absurd h (by simp)
  | cons c0 cs ih =>
    cases g with
    | nil => exact ⟨c, h, hs⟩
    | cons g0 gs =>
      cases j with
      | zero =>
        have hc0 : c0 = c := by simpa using h
        subst hc0
        cases g0 with
        | none => exact ⟨c0, rfl, hs⟩
        | some t => exact ⟨(some t, c0.2), rfl, by simp⟩
      | succ j =>
        have h' : cs.get? j = some c := h
        obtain ⟨c', hc', hs'⟩ := ih gs j h'
        cases g0 with
        | none => exact ⟨c', hc', hs'⟩
        | some t => exact ⟨c', hc', hs'⟩

/-- The full resync sweep is idempotent against unchanged ground truth. -/
theorem autoUpdate_idem (gt : List (List (Option Tile)))
    (m : List (List Cell)) :
    autoUpdate gt (autoUpdate gt m) = autoUpdate gt m := by
  induction m generalizing gt with
  | nil => cases gt <;> rfl
  | cons row rows ih =>
    cases gt with
    | nil => rfl
    | cons g gs => simp [autoUpdate, autoUpdateRow_idem, ih]

/-- The full resync sweep never downgrades an observed cell. -/
theorem autoUpdate_mono (gt : List (List (Option Tile)))
    (m : List (List Cell)) (i j : Nat) (c : Cell)
    (h : getCell m i j = some c) (hs : c.1.isSome) :
    ∃ c', getCell (autoUpdate gt m) i j = some c' ∧ c'.1.isSome := by
  induction m generalizing gt i with
  | nil => exact absurd h (by simp [getCell])
  | cons row rows ih =>
    cases gt with
    | nil => exact ⟨c, h, hs⟩
    | cons g gs =>
      cases i with
      | zero =>
        have h' : row.get? j = some c := h
        obtain ⟨c', hc', hs'⟩ := autoUpdateRow_mono g row j c h' hs
        exact ⟨c', hc', hs'⟩
      | succ i =>
        have h' : getCell rows i j = some c := h
        obtain ⟨c', hc', hs'⟩ := ih gs i h'
        exact ⟨c', hc', hs'⟩

/-- C10: the resync sweep (`auto_update`) never downgrades a cell — a
cell holding an observed tile still holds one afterwards, a `None` in
the ground truth does not erase it — and it is idempotent: running it
twice against unchanged ground truth yields the same grid as once. -/
theorem c10_resync_monotone_idempotent (m : List (List Cell))
    (gt : List (List (Option Tile))) :
    (∀ i j c, getCell m i j = some c → c.1.isSome →
       ∃ c', getCell (autoUpdate gt m) i j = some c' ∧ c'.1.isSome) ∧
    autoUpdate gt (autoUpdate gt m) = autoUpdate gt m :=
  ⟨fun i j c h hs => autoUpdate_mono gt m i j c h hs, autoUpdate_idem gt m⟩

/-- Closed instance of C10's theorem: a cell observed in the map but
missing (`None`) in the ground truth is still observed after resync. -/
theorem c10_resync_witness :
    ∃ c', getCell (autoUpdate [[some grassTile, none]]
        [[(none, none), (some mountainTile, none)]]) 0 1 = some c' ∧
      c'.1.isSome :=
  (c10_resync_monotone_idempotent
      [[(none, none), (some mountainTile, none)]]
      [[some grassTile, none]]).1 0 1 (some mountainTile, none) rfl rfl
